import Mathlib

/-!
Shallow embedding of the hftbacktest simulation core (order bus, PnL state,
asset-type math, processor dispatch, and the Tardis depth-file converter),
translated from `src/hftbacktest/{order,state,assettype,proc/proc,data/utils/tardis}.py`.
Integer-typed fields (`int64`, `int8`) are modelled as `Int`; `float64` fields
are modelled as `Rat` (exact arithmetic over the same algebraic expressions).
-/

namespace Hft

/-! Constants from `order.py`. -/

def BUY : Int := 1
def SELL : Int := -1

def NONE : Int := 0
def NEW : Int := 1
def EXPIRED : Int := 2
def FILLED : Int := 3
def CANCELED : Int := 4
def PARTIALLY_FILLED : Int := 5
def MODIFY : Int := 6
def REJECTED : Int := 7

def GTC : Int := 0
def GTX : Int := 1
def FOK : Int := 2
def IOC : Int := 3

def LIMIT : Int := 0
def MARKET : Int := 1

/-- Order record, from the `Order` jitclass in `order.py`. The two-slot
queue scratch array `q : float64[2]` is modelled as a pair of rationals. -/
structure Order where
  qty : ℚ
  leaves_qty : ℚ
  price_tick : ℤ
  tick_size : ℚ
  side : ℤ
  time_in_force : ℤ
  exch_timestamp : ℤ
  status : ℤ
  local_timestamp : ℤ
  req : ℤ
  exec_price_tick : ℤ
  exec_qty : ℚ
  order_id : ℤ
  q : ℚ × ℚ
  maker : Bool
  order_type : ℤ
  deriving DecidableEq

/-- Constructor semantics of `Order.__init__` in `order.py`. -/
def Order.init (order_id price_tick : ℤ) (tick_size qty : ℚ)
    (side time_in_force order_type : ℤ) : Order :=
  { qty := qty
    leaves_qty := qty
    price_tick := price_tick
    tick_size := tick_size
    side := side
    time_in_force := time_in_force
    exch_timestamp := 0
    status := NONE
    local_timestamp := 0
    req := NONE
    exec_price_tick := 0
    exec_qty := 0
    order_id := order_id
    q := (0, 0)
    maker := false
    order_type := order_type }

/-- Derived property `Order.price` in `order.py`. -/
def Order.price (o : Order) : ℚ := (o.price_tick : ℚ) * o.tick_size

/-- Derived property `Order.exec_price` in `order.py`. -/
def Order.exec_price (o : Order) : ℚ := (o.exec_price_tick : ℚ) * o.tick_size

/-- Translation of `Order.copy` in `order.py`: build a fresh instance through the
constructor, then assign every remaining field; the `q` buffer contents are
copied element-wise into the fresh buffer. -/
def Order.copy (o : Order) : Order :=
  let order := Order.init o.order_id o.price_tick o.tick_size o.qty o.side
    o.time_in_force o.order_type
  { order with
    leaves_qty := o.leaves_qty
    exch_timestamp := o.exch_timestamp
    status := o.status
    local_timestamp := o.local_timestamp
    req := o.req
    exec_price_tick := o.exec_price_tick
    exec_qty := o.exec_qty
    order_id := o.order_id
    q := o.q
    maker := o.maker }

/-- Increment of the `orders` id-count dictionary in `OrderBus.append`
(`self.orders[id] += 1` with default 1), on an association-list model. -/
def incrCount : List (ℤ × ℤ) → ℤ → List (ℤ × ℤ)
  | [], k => [(k, 1)]
  | (k', c) :: rest, k =>
    if k' = k then (k', c + 1) :: rest else (k', c) :: incrCount rest k

/-- Decrement of the `orders` id-count dictionary in `OrderBus.delitem`
(`self.orders[id] -= 1; if self.orders[id] <= 0: del self.orders[id]`). -/
def decrCount : List (ℤ × ℤ) → ℤ → List (ℤ × ℤ)
  | [], _ => []
  | (k', c) :: rest, k =>
    if k' = k then (if c - 1 ≤ 0 then rest else (k', c - 1) :: rest)
    else (k', c) :: decrCount rest k

/-- OrderBus record from `order.py`: the `(order, receive_ts)` list, the
id-count dictionary, and the cached frontmost timestamp. -/
structure OrderBus where
  order_list : List (Order × ℤ)
  orders : List (ℤ × ℤ)
  frontmost_timestamp : ℤ
  deriving DecidableEq

/-- Translation of `OrderBus.__init__`: empty list, empty dictionary, frontmost 0. -/
def OrderBus.init : OrderBus :=
  { order_list := [], orders := [], frontmost_timestamp := 0 }

/-- The timestamp reassignment at the top of `OrderBus.append`: when the
list is non-empty and the given timestamp is smaller than the last entry's
timestamp, it is raised to that last timestamp. -/
def clampTs (b : OrderBus) (timestamp : ℤ) : ℤ :=
  match b.order_list.getLast? with
  | some last => if timestamp < last.2 then last.2 else timestamp
  | none => timestamp

/-- Translation of `OrderBus.append` in `order.py`: clamp the timestamp to the last entry's
timestamp when smaller, push `(order, ts)`, bump the id count and update
`frontmost_timestamp` (seed it when it is non-positive, else take the min). -/
def OrderBus.append (b : OrderBus) (order : Order) (timestamp : ℤ) : OrderBus :=
  let timestamp := clampTs b timestamp
  { order_list := b.order_list ++ [(order, timestamp)]
    orders := incrCount b.orders order.order_id
    frontmost_timestamp :=
      if b.frontmost_timestamp ≤ 0 then timestamp
      else min b.frontmost_timestamp timestamp }

/-- Translation of `OrderBus.delitem` in `order.py`: remove the entry at `key` and decrement
the id count; an out-of-range index raises `IndexError`, modelled as `none`.
Note that `frontmost_timestamp` is left untouched. -/
def OrderBus.delitem (b : OrderBus) (key : ℕ) : Option OrderBus :=
  match b.order_list[key]? with
  | none => none
  | some entry =>
    some { order_list := b.order_list.eraseIdx key
           orders := decrCount b.orders entry.1.order_id
           frontmost_timestamp := b.frontmost_timestamp }

/-- Translation of `OrderBus.reset` in `order.py`: clear both containers, frontmost to 0. -/
def OrderBus.reset (_b : OrderBus) : OrderBus :=
  { order_list := [], orders := [], frontmost_timestamp := 0 }

/-- One bus operation, for stating invariants over operation sequences. -/
inductive BusOp
  | append (o : Order) (ts : ℤ)
  | delitem (i : ℕ)
  | reset
  deriving DecidableEq

/-- Apply one bus operation (`delitem` can fail on an out-of-range index). -/
def applyOp (b : OrderBus) : BusOp → Option OrderBus
  | BusOp.append o ts => some (b.append o ts)
  | BusOp.delitem i => b.delitem i
  | BusOp.reset => some (b.reset)

/-- Apply a sequence of bus operations left to right. -/
def applyOps (b : OrderBus) : List BusOp → Option OrderBus
  | [] => some b
  | op :: ops =>
    match applyOp b op with
    | none => none
    | some b' => applyOps b' ops

/-- Minimum receive timestamp among held items, 0 when the bus is empty
(the quantity `frontmost_timestamp` is documented to cache). -/
def minRecvTs : List (Order × ℤ) → ℤ
  | [] => 0
  | x :: rest => (rest.map Prod.snd).foldl min x.2

/-- Fold a list of `(order, ts)` pairs through `OrderBus.append`. -/
def appendAll (b : OrderBus) (xs : List (Order × ℤ)) : OrderBus :=
  xs.foldl (fun acc x => acc.append x.1 x.2) b

/-! Asset types, from `assettype.py`. -/

/-- Capability record for an asset type: `amount(exec_price, qty)` and
`equity(price, balance, position, fee)`. -/
structure AssetType where
  amount : ℚ → ℚ → ℚ
  equity : ℚ → ℚ → ℚ → ℚ → ℚ

/-- Translation of `LinearAsset` in `assettype.py`. -/
def LinearAsset (contract_size : ℤ) : AssetType :=
  { amount := fun exec_price qty => (contract_size : ℚ) * exec_price * qty
    equity := fun price balance position fee =>
      balance + (contract_size : ℚ) * position * price - fee }

/-- Translation of `InverseAsset` in `assettype.py` (total-division form over `ℚ`). -/
def InverseAsset (contract_size : ℤ) : AssetType :=
  { amount := fun exec_price qty => (contract_size : ℚ) * qty / exec_price
    equity := fun price balance position fee =>
      -balance - (contract_size : ℚ) * position / price - fee }

/-- Checked division: Python float division raises `ZeroDivisionError` on a
zero divisor, modelled as `none`. -/
def fdivChecked (a b : ℚ) : Option ℚ :=
  if b = 0 then none else some (a / b)

/-- Translation of `InverseAsset.amount` with the fallible division made explicit:
`contract_size * qty / exec_price`. -/
def InverseAsset.amountChecked (contract_size : ℤ) (exec_price qty : ℚ) :
    Option ℚ :=
  fdivChecked ((contract_size : ℚ) * qty) exec_price

/-- Translation of `InverseAsset.equity` with the fallible division made explicit:
`-balance - contract_size * position / price - fee`. -/
def InverseAsset.equityChecked (contract_size : ℤ)
    (price balance position fee : ℚ) : Option ℚ :=
  (fdivChecked ((contract_size : ℚ) * position) price).map
    (fun x => -balance - x - fee)

/-! PnL state, from `state.py`. -/

/-- The `State_` record from `state.py`. -/
structure State where
  position : ℚ
  balance : ℚ
  fee : ℚ
  trade_num : ℤ
  trade_qty : ℚ
  trade_amount : ℚ
  maker_fee : ℚ
  taker_fee : ℚ
  asset_type : AssetType

/-- Translation of `State_.__init__` in `state.py`: counters start at zero. -/
def State.init (start_position start_balance start_fee maker_fee taker_fee : ℚ)
    (asset_type : AssetType) : State :=
  { position := start_position
    balance := start_balance
    fee := start_fee
    trade_num := 0
    trade_qty := 0
    trade_amount := 0
    maker_fee := maker_fee
    taker_fee := taker_fee
    asset_type := asset_type }

/-- Translation of `State_.apply_fill` in `state.py`. -/
def State.apply_fill (s : State) (order : Order) : State :=
  let fee := if order.maker then s.maker_fee else s.taker_fee
  let amount := s.asset_type.amount order.exec_price order.exec_qty
  { s with
    position := s.position + order.exec_qty * (order.side : ℚ)
    balance := s.balance - amount * (order.side : ℚ)
    fee := s.fee + amount * fee
    trade_num := s.trade_num + 1
    trade_qty := s.trade_qty + order.exec_qty
    trade_amount := s.trade_amount + amount }

/-- Translation of `State_.equity` in `state.py`. -/
def State.equity (s : State) (mid : ℚ) : ℚ :=
  s.asset_type.equity mid s.balance s.position s.fee

/-- Translation of `State_.equity` specialised to an inverse asset with the fallible
division made explicit. -/
def State.equityInverseChecked (contract_size : ℤ) (s : State) (mid : ℚ) :
    Option ℚ :=
  InverseAsset.equityChecked contract_size mid s.balance s.position s.fee

/-! Processor dispatch, from `proc/proc.py`. -/

/-- Which part of `Proc.process` runs: the inbound-order loop or the data row. -/
inductive ProcPart
  | order_part
  | data_part
  deriving DecidableEq

/-- Translation of `Proc.next_timestamp` in `proc/proc.py`, as a function of the two
candidates `next_data_timestamp` (from `_next_data_timestamp()`) and
`next_recv_order_timestamp` (the inbound bus `frontmost_timestamp`). -/
def Proc.next_timestamp (next_data_timestamp next_recv_order_timestamp : ℤ) : ℤ :=
  if (0 < next_recv_order_timestamp ∧
        next_recv_order_timestamp < next_data_timestamp)
      ∨ (next_data_timestamp ≤ 0 ∧ 0 < next_recv_order_timestamp) then
    next_recv_order_timestamp
  else
    next_data_timestamp

/-- The branch decision at the top of `Proc.process` in `proc/proc.py`
(lines 173-212): the same guard as `next_timestamp`; when it holds the order
part runs, otherwise the data part consumes the next data row. -/
def Proc.processPart (next_data_timestamp next_recv_order_timestamp : ℤ) :
    ProcPart :=
  if (0 < next_recv_order_timestamp ∧
        next_recv_order_timestamp < next_data_timestamp)
      ∨ (next_data_timestamp ≤ 0 ∧ 0 < next_recv_order_timestamp) then
    ProcPart.order_part
  else
    ProcPart.data_part

/-! Tardis depth-file conversion, from `data/utils/tardis.py` (`convert`),
restricted to the DEPTH file-type branch of the reading loop. -/

/-- Modelled from the spec: the event-kind tags of §3 (`DEPTH_EVENT`,
`TRADE_EVENT`, `DEPTH_CLEAR_EVENT`, `DEPTH_SNAPSHOT_EVENT`) are imported by
`tardis.py` from the package root, which is outside the covered files; only
their distinctness is used here. -/
def DEPTH_EVENT : ℚ := 1

/-- Modelled from the spec: see `DEPTH_EVENT`. -/
def TRADE_EVENT : ℚ := 2

/-- Modelled from the spec: see `DEPTH_EVENT`. -/
def DEPTH_CLEAR_EVENT : ℚ := 3

/-- Modelled from the spec: see `DEPTH_EVENT`. -/
def DEPTH_SNAPSHOT_EVENT : ℚ := 4

/-- One emitted 6-column row `{kind, exch_ts, local_ts, side, price, qty}`. -/
structure Row6 where
  ev : ℚ
  exch_ts : ℚ
  local_ts : ℚ
  side : ℚ
  price : ℚ
  qty : ℚ
  deriving DecidableEq

/-- One parsed CSV data row of a Tardis incremental-book (DEPTH) file:
`cols[2]` timestamp, `cols[3]` local_timestamp, `cols[4] == 'true'`
(is_snapshot), `cols[5] == 'bid'`, `cols[6]` price, `cols[7]` amount. -/
structure DepthRow where
  timestamp : ℤ
  local_timestamp : ℤ
  is_snapshot : Bool
  bid : Bool
  price : ℚ
  amount : ℚ
  deriving DecidableEq

/-- The `snapshot_mode` literal of `convert`. -/
inductive SnapshotMode
  | process
  | ignore_sod
  | ignore
  deriving DecidableEq

/-- The loop state of the depth-file reading loop in `convert`:
`is_snapshot`, the two snapshot buffers (`ss_bid`, `ss_ask`, with their fill
counters folded into the list lengths), and `is_sod_snapshot`. -/
structure SnapState where
  is_snapshot : Bool
  ss_bid : List Row6
  ss_ask : List Row6
  is_sod_snapshot : Bool
  deriving DecidableEq

/-- Loop-state initialisation in `convert`. -/
def initSnapState : SnapState :=
  { is_snapshot := false, ss_bid := [], ss_ask := [], is_sod_snapshot := true }

/-- The `DEPTH_SNAPSHOT_EVENT` row buffered for a snapshot CSV row. -/
def snapRow6 (r : DepthRow) : Row6 :=
  { ev := DEPTH_SNAPSHOT_EVENT
    exch_ts := (r.timestamp : ℚ)
    local_ts := (r.local_timestamp : ℚ)
    side := if r.bid then 1 else -1
    price := r.price
    qty := r.amount }

/-- The `DEPTH_EVENT` row emitted for a non-snapshot CSV row. -/
def diffRow6 (r : DepthRow) : Row6 :=
  { ev := DEPTH_EVENT
    exch_ts := (r.timestamp : ℚ)
    local_ts := (r.local_timestamp : ℚ)
    side := if r.bid then 1 else -1
    price := r.price
    qty := r.amount }

/-- End-of-snapshot flush for one side in `convert`: when the buffer is
non-empty, emit a `DEPTH_CLEAR_EVENT` carrying the first buffered row's
timestamps (`ss[0,1]`, `ss[0,2]`), the side, and the last buffered row's
price (`ss[-1,4]`), followed by the buffered snapshot rows. -/
def flushSide (side : ℚ) (buf : List Row6) : List Row6 :=
  match buf with
  | [] => []
  | b :: bs =>
    { ev := DEPTH_CLEAR_EVENT
      exch_ts := b.exch_ts
      local_ts := b.local_ts
      side := side
      price := (bs.getLastD b).price
      qty := 0 } :: (b :: bs)

/-- One iteration of the DEPTH branch of the reading loop in `convert`:
snapshot rows are skipped or buffered by side; a non-snapshot row first
clears `is_sod_snapshot`, then (if a snapshot block just ended) flushes the
bid block and the ask block, and finally emits its own `DEPTH_EVENT` row. -/
def stepDepth (mode : SnapshotMode) (st : SnapState) (r : DepthRow) :
    SnapState × List Row6 :=
  if r.is_snapshot then
    if mode = SnapshotMode.ignore
        ∨ (mode = SnapshotMode.ignore_sod ∧ st.is_sod_snapshot) then
      (st, [])
    else
      let st1 := if st.is_snapshot then st
        else { st with is_snapshot := true, ss_bid := [], ss_ask := [] }
      if r.bid then
        ({ st1 with ss_bid := st1.ss_bid ++ [snapRow6 r] }, [])
      else
        ({ st1 with ss_ask := st1.ss_ask ++ [snapRow6 r] }, [])
  else
    if st.is_snapshot then
      ({ is_snapshot := false, ss_bid := [], ss_ask := [],
         is_sod_snapshot := false },
       flushSide 1 st.ss_bid ++ flushSide (-1) st.ss_ask ++ [diffRow6 r])
    else
      ({ st with is_sod_snapshot := false }, [diffRow6 r])

/-- Run the DEPTH reading loop over a list of parsed rows, returning the
final loop state and the emitted rows in order. -/
def runDepth (mode : SnapshotMode) (st : SnapState) :
    List DepthRow → SnapState × List Row6
  | [] => (st, [])
  | r :: rs =>
    let p := stepDepth mode st r
    let rec_ := runDepth mode p.1 rs
    (rec_.1, p.2 ++ rec_.2)

/-- The rows `convert` emits for one depth file. -/
def convertDepthRows (mode : SnapshotMode) (rows : List DepthRow) : List Row6 :=
  (runDepth mode initSnapState rows).2

/-- Restatement of the spec's snapshot-ingestion rule for one side: a
`DEPTH_CLEAR_EVENT` row carrying the side and the price of the side's last
snapshot row, immediately followed by that side's snapshot rows (empty when
the side has no snapshot row in the block). -/
def sideBlock (side : ℚ) (rows : List DepthRow) : List Row6 :=
  match rows with
  | [] => []
  | b :: bs =>
    { ev := DEPTH_CLEAR_EVENT
      exch_ts := (b.timestamp : ℚ)
      local_ts := (b.local_timestamp : ℚ)
      side := side
      price := (bs.getLastD b).price
      qty := 0 } :: (b :: bs).map snapRow6

/-! Theorems. -/

/-- C2: `apply_fill(o)` sets position to `position + exec_qty * side`,
balance to `balance - amount * side`, fee to `fee + amount * fee_rate` with
`fee_rate = maker_fee` if `o.maker` else `taker_fee` and
`amount = asset_type.amount(exec_price, exec_qty)`, and increments
`trade_num` by 1, `trade_qty` by `exec_qty`, `trade_amount` by `amount`. -/
theorem C2_apply_fill_spec (s : State) (o : Order) :
    (s.apply_fill o).position = s.position + o.exec_qty * (o.side : ℚ)
    ∧ (s.apply_fill o).balance =
        s.balance - s.asset_type.amount o.exec_price o.exec_qty * (o.side : ℚ)
    ∧ (s.apply_fill o).fee =
        s.fee + s.asset_type.amount o.exec_price o.exec_qty *
          (if o.maker then s.maker_fee else s.taker_fee)
    ∧ (s.apply_fill o).trade_num = s.trade_num + 1
    ∧ (s.apply_fill o).trade_qty = s.trade_qty + o.exec_qty
    ∧ (s.apply_fill o).trade_amount =
        s.trade_amount + s.asset_type.amount o.exec_price o.exec_qty :=
  ⟨rfl, rfl, rfl, rfl, rfl, rfl⟩

/-- C6: for contract size `C`, `LinearAsset.amount(p,q) = C*p*q`,
`LinearAsset.equity(p,b,pos,f) = b + C*pos*p - f`, and for `p ≠ 0`,
`InverseAsset.amount(p,q) = C*q/p` and
`InverseAsset.equity(p,b,pos,f) = -b - C*pos/p - f`. -/
theorem C6_asset_math (C : ℤ) (p q b pos f : ℚ) (hp : p ≠ 0) :
    (LinearAsset C).amount p q = (C : ℚ) * p * q
    ∧ (LinearAsset C).equity p b pos f = b + (C : ℚ) * pos * p - f
    ∧ (InverseAsset C).amount p q = (C : ℚ) * q / p
    ∧ (InverseAsset C).equity p b pos f = -b - (C : ℚ) * pos / p - f :=
  ⟨rfl, rfl, rfl, rfl⟩

/-- Witness for C6 at `C = 2`, `p = 3`, `q = 5`, `b = 7`, `pos = 11`,
`f = 13`. -/
theorem C6_witness :
    (3 : ℚ) ≠ 0
    ∧ ((LinearAsset 2).amount 3 5 = (2 : ℚ) * 3 * 5
       ∧ (LinearAsset 2).equity 3 7 11 13 = 7 + (2 : ℚ) * 11 * 3 - 13
       ∧ (InverseAsset 2).amount 3 5 = (2 : ℚ) * 5 / 3
       ∧ (InverseAsset 2).equity 3 7 11 13 = -7 - (2 : ℚ) * 11 / 3 - 13) :=
  ⟨by norm_num, C6_asset_math 2 3 5 7 11 13 (by norm_num)⟩

/-- Generalised position accounting: folding `apply_fill` over a fill list
adds the sum of `exec_qty * side` to the position. -/
theorem foldl_apply_fill_position (l : List Order) (s : State) :
    (l.foldl State.apply_fill s).position =
      s.position + (l.map (fun o => o.exec_qty * (o.side : ℚ))).sum := by
  induction l generalizing s with
  | nil => simp
  | cons o rest ih =>
    simp only [List.foldl_cons, List.map_cons, List.sum_cons, ih]
    show (s.apply_fill o).position + _ = _
    simp [State.apply_fill]
    ring

/-- C7: starting from `State.init start_position ...`, applying any finite
sequence of fills leaves `position = start_position + Σ exec_qty * side`. -/
theorem C7_conservation_of_quantity
    (start_position start_balance start_fee maker_fee taker_fee : ℚ)
    (a : AssetType) (l : List Order) :
    (l.foldl State.apply_fill
        (State.init start_position start_balance start_fee maker_fee taker_fee
          a)).position =
      start_position + (l.map (fun o => o.exec_qty * (o.side : ℚ))).sum :=
  foldl_apply_fill_position l _

/-- C8: `Order.copy` produces an order agreeing with the original on every
field (in the value model, a fresh value equal to the original; the `q`
buffer is content-copied into a fresh array, so nothing mutable is shared). -/
theorem C8_copy_eq (o : Order) : o.copy = o := by
  cases o
  rfl

/-- C10: both checked inverse-asset functions (and hence `State.equity` for
an inverse asset) succeed exactly when the price argument is non-zero, and
on success they agree with the total-division form. -/
theorem C10_inverse_division_guard (C : ℤ) (p q b pos f : ℚ) (s : State)
    (mid : ℚ) :
    ((InverseAsset.amountChecked C p q).isSome ↔ p ≠ 0)
    ∧ ((InverseAsset.equityChecked C p b pos f).isSome ↔ p ≠ 0)
    ∧ ((State.equityInverseChecked C s mid).isSome ↔ mid ≠ 0)
    ∧ (p ≠ 0 →
        InverseAsset.amountChecked C p q = some ((InverseAsset C).amount p q))
    ∧ (p ≠ 0 →
        InverseAsset.equityChecked C p b pos f =
          some ((InverseAsset C).equity p b pos f)) := by
  refine ⟨?_, ?_, ?_, ?_, ?_⟩
  · by_cases hp : p = 0 <;>
      simp [InverseAsset.amountChecked, fdivChecked, hp]
  · by_cases hp : p = 0 <;>
      simp [InverseAsset.equityChecked, fdivChecked, hp]
  · by_cases hm : mid = 0 <;>
      simp [State.equityInverseChecked, InverseAsset.equityChecked,
        fdivChecked, hm]
  · intro hp
    simp [InverseAsset.amountChecked, fdivChecked, hp, InverseAsset]
  · intro hp
    simp [InverseAsset.equityChecked, fdivChecked, hp, InverseAsset]

/-- Witness for C10 at `C = 1`, `p = mid = 2`, `q = 3`, `b = 4`, `pos = 5`,
`f = 6` and the initial state. -/
theorem C10_witness :
    ((InverseAsset.amountChecked 1 2 3).isSome ↔ (2 : ℚ) ≠ 0)
    ∧ ((InverseAsset.equityChecked 1 2 4 5 6).isSome ↔ (2 : ℚ) ≠ 0)
    ∧ (((State.init 0 0 0 0 0 (InverseAsset 1)).equityInverseChecked 1
          2).isSome ↔ (2 : ℚ) ≠ 0)
    ∧ ((2 : ℚ) ≠ 0 →
        InverseAsset.amountChecked 1 2 3 = some ((InverseAsset 1).amount 2 3))
    ∧ ((2 : ℚ) ≠ 0 →
        InverseAsset.equityChecked 1 2 4 5 6 =
          some ((InverseAsset 1).equity 2 4 5 6)) :=
  C10_inverse_division_guard 1 2 3 4 5 6 (State.init 0 0 0 0 0 (InverseAsset 1)) 2

/-- C3: `next_timestamp` returns the minimum of the next data timestamp and
the inbound bus frontmost timestamp, treating non-positive values as "no
event": the smaller when both are positive, the positive one when exactly
one is positive. -/
theorem C3_next_timestamp_min (d r : ℤ) :
    (0 < d → 0 < r → Proc.next_timestamp d r = min d r)
    ∧ (0 < d → r ≤ 0 → Proc.next_timestamp d r = d)
    ∧ (d ≤ 0 → 0 < r → Proc.next_timestamp d r = r) := by
  unfold Proc.next_timestamp
  refine ⟨?_, ?_, ?_⟩
  · intro hd hr
    by_cases hlt : r < d
    · rw [if_pos (Or.inl ⟨hr, hlt⟩)]
      omega
    · rw [if_neg (by omega)]
      omega
  · intro hd hr
    rw [if_neg (by omega)]
  · intro hd hr
    rw [if_pos (Or.inr ⟨hd, hr⟩)]

/-- Witness for C3 at `(d, r) = (5, 3)`, `(5, 0)` and `(0, 3)`. -/
theorem C3_witness :
    Proc.next_timestamp 5 3 = min 5 3
    ∧ Proc.next_timestamp 5 0 = 5
    ∧ Proc.next_timestamp 0 3 = 3 :=
  ⟨(C3_next_timestamp_min 5 3).1 (by decide) (by decide),
   (C3_next_timestamp_min 5 0).2.1 (by decide) (by decide),
   (C3_next_timestamp_min 0 3).2.2 (by decide) (by decide)⟩

/-- C1 counterexample: with the frontmost inbound receive timestamp and the
next data timestamp both equal to 7 (positive and equal), `Proc.process`
dispatches the data part, not the order part as the claim states. -/
theorem C1_counterexample :
    Proc.processPart 7 7 = ProcPart.data_part
    ∧ Proc.processPart 7 7 ≠ ProcPart.order_part := by
  constructor
  · rfl
  · decide

/-- C1 amended: when the frontmost inbound receive timestamp and the next
data timestamp are both positive and equal, `Proc.process` dispatches the
data part first; the order part runs only when the order timestamp is valid
and strictly earlier, or the data timestamp is invalid. -/
theorem C1_tie_dispatches_data (t : ℤ) (ht : 0 < t) :
    Proc.processPart t t = ProcPart.data_part := by
  unfold Proc.processPart
  rw [if_neg (by omega)]

/-- Witness for the amended C1 at `t = 7`. -/
theorem C1_witness :
    (0 : ℤ) < 9 ∧ Proc.processPart 9 9 = ProcPart.data_part :=
  ⟨by decide, C1_tie_dispatches_data 9 (by decide)⟩

/-- The last receive timestamp of the list bounds the clamped timestamp. -/
theorem last_le_clampTs (b : OrderBus) (ts : ℤ) :
    ∀ x ∈ (b.order_list.map Prod.snd).getLast?, x ≤ clampTs b ts := by
  intro x hx
  rw [List.getLast?_map] at hx
  cases hl : b.order_list.getLast? with
  | none => rw [hl] at hx; simp at hx
  | some last =>
    rw [hl] at hx
    have hx2 : last.2 = x := by simpa using hx
    subst hx2
    unfold clampTs
    rw [hl]
    show last.2 ≤ if ts < last.2 then last.2 else ts
    split <;> omega

/-- The given timestamp bounds the clamped timestamp from below. -/
theorem le_clampTs (b : OrderBus) (ts : ℤ) : ts ≤ clampTs b ts := by
  unfold clampTs
  cases b.order_list.getLast? with
  | none => exact le_refl ts
  | some last => simp only; split <;> omega

/-- One `append` preserves monotonicity of the receive timestamps. -/
theorem append_chain' (b : OrderBus) (o : Order) (ts : ℤ)
    (h : (b.order_list.map Prod.snd).Chain' (· ≤ ·)) :
    ((b.append o ts).order_list.map Prod.snd).Chain' (· ≤ ·) := by
  show ((b.order_list ++ [(o, clampTs b ts)]).map Prod.snd).Chain' (· ≤ ·)
  rw [List.map_append]
  rw [List.chain'_append]
  refine ⟨h, List.chain'_singleton _, ?_⟩
  intro x hx y hy
  simp only [List.map_cons, List.map_nil, List.head?_cons, Option.mem_def,
    Option.some.injEq] at hy
  subst hy
  exact last_le_clampTs b ts x hx

/-- Any sequence of appends starting from a monotone bus stays monotone. -/
theorem appendAll_chain' (xs : List (Order × ℤ)) (b : OrderBus)
    (h : (b.order_list.map Prod.snd).Chain' (· ≤ ·)) :
    ((appendAll b xs).order_list.map Prod.snd).Chain' (· ≤ ·) := by
  induction xs generalizing b with
  | nil => exact h
  | cons x rest ih =>
    exact ih (b.append x.1 x.2) (append_chain' b x.1 x.2 h)

/-- C4: `append` clamps a too-small timestamp up to the last entry's
timestamp before pushing, preserves non-decreasing receive timestamps, and
hence any sequence of appends from the empty bus yields non-decreasing
receive timestamps. -/
theorem C4_bus_monotonicity :
    (∀ (b : OrderBus) (o : Order) (ts : ℤ) (last : Order × ℤ),
        b.order_list.getLast? = some last → ts < last.2 →
        (b.append o ts).order_list = b.order_list ++ [(o, last.2)])
    ∧ (∀ (b : OrderBus) (o : Order) (ts : ℤ),
        (b.order_list.map Prod.snd).Chain' (· ≤ ·) →
        ((b.append o ts).order_list.map Prod.snd).Chain' (· ≤ ·))
    ∧ (∀ xs : List (Order × ℤ),
        ((appendAll OrderBus.init xs).order_list.map Prod.snd).Chain'
          (· ≤ ·)) := by
  refine ⟨?_, append_chain', ?_⟩
  · intro b o ts last hl hts
    have hcl : clampTs b ts = last.2 := by
      unfold clampTs
      rw [hl]
      simp [hts]
    show b.order_list ++ [(o, clampTs b ts)] = b.order_list ++ [(o, last.2)]
    rw [hcl]
  · intro xs
    exact appendAll_chain' xs OrderBus.init (by simp [OrderBus.init])

/-- Sample order used in concrete bus computations:
`Order(order_id=1, price_tick=100, tick_size=1, qty=5, side=1, GTC, LIMIT)`. -/
def o0 : Order := Order.init 1 100 1 5 1 GTC LIMIT

/-- Witness for C4: the clamp at a bus ending at timestamp 5 with `ts = 3`,
preservation at that bus, and the from-empty property at two appends. -/
theorem C4_witness :
    ((OrderBus.mk [(o0, 5)] [(1, 1)] 5).order_list.getLast? = some (o0, 5)
      ∧ (3 : ℤ) < 5
      ∧ ((OrderBus.mk [(o0, 5)] [(1, 1)] 5).append o0 3).order_list =
          [(o0, 5)] ++ [(o0, 5)])
    ∧ ((((OrderBus.mk [(o0, 5)] [(1, 1)] 5).order_list.map
          Prod.snd).Chain' (· ≤ ·))
        ∧ (((OrderBus.mk [(o0, 5)] [(1, 1)] 5).append o0 3).order_list.map
            Prod.snd).Chain' (· ≤ ·))
    ∧ ((appendAll OrderBus.init [(o0, 5), (o0, 3)]).order_list.map
        Prod.snd).Chain' (· ≤ ·) :=
  ⟨⟨rfl, by decide,
    C4_bus_monotonicity.1 (OrderBus.mk [(o0, 5)] [(1, 1)] 5) o0 3 (o0, 5) rfl
      (by decide)⟩,
   ⟨by simp, C4_bus_monotonicity.2.1 (OrderBus.mk [(o0, 5)] [(1, 1)] 5) o0 3
      (by simp)⟩,
   C4_bus_monotonicity.2.2 [(o0, 5), (o0, 3)]⟩

/-- Operations allowed by the amended C5: appends with a positive timestamp
and resets; `delitem` is excluded because it leaves `frontmost_timestamp`
untouched. -/
def goodOp : BusOp → Prop
  | BusOp.append _ ts => 0 < ts
  | BusOp.delitem _ => False
  | BusOp.reset => True

/-- A fold of `min` over positive integers stays positive. -/
theorem foldl_min_pos (l : List ℤ) (a : ℤ) (ha : 0 < a)
    (hl : ∀ t ∈ l, 0 < t) : 0 < l.foldl min a := by
  induction l generalizing a with
  | nil => exact ha
  | cons x xs ih =>
    simp only [List.foldl_cons]
    exact ih (min a x) (lt_min ha (hl x (List.mem_cons_self x xs)))
      (fun t ht => hl t (List.mem_cons_of_mem x ht))

/-- Appending an entry to a non-empty list takes the running minimum with
the new timestamp. -/
theorem minRecvTs_concat (l : List (Order × ℤ)) (x : Order × ℤ) (hl : l ≠ []) :
    minRecvTs (l ++ [x]) = min (minRecvTs l) x.2 := by
  cases l with
  | nil => exact absurd rfl hl
  | cons y rest =>
    simp [minRecvTs, List.map_append, List.foldl_append]

/-- The cache invariant maintained by `append` and `reset`: all held
receive timestamps are positive and `frontmost_timestamp` caches their
minimum (0 when the bus is empty). -/
def busInv (b : OrderBus) : Prop :=
  (∀ t ∈ b.order_list.map Prod.snd, 0 < t)
  ∧ b.frontmost_timestamp = minRecvTs b.order_list

/-- The clamped timestamp is positive when the input timestamp is. -/
theorem clampTs_pos (b : OrderBus) (ts : ℤ) (hts : 0 < ts) :
    0 < clampTs b ts :=
  lt_of_lt_of_le hts (le_clampTs b ts)

/-- Appending with a positive timestamp preserves the cache invariant. -/
theorem busInv_append (b : OrderBus) (o : Order) (ts : ℤ) (hts : 0 < ts)
    (h : busInv b) : busInv (b.append o ts) := by
  obtain ⟨hpos, hfront⟩ := h
  have hpos' : ∀ t ∈ ((b.append o ts).order_list.map Prod.snd), 0 < t := by
    intro t ht
    have ht' : t ∈ ((b.order_list ++ [(o, clampTs b ts)]).map Prod.snd) := ht
    rw [List.map_append] at ht'
    rcases List.mem_append.mp ht' with h1 | h2
    · exact hpos t h1
    · simp only [List.map_cons, List.map_nil, List.mem_singleton] at h2
      subst h2
      exact clampTs_pos b ts hts
  refine ⟨hpos', ?_⟩
  cases hl : b.order_list with
  | nil =>
    have hcl : clampTs b ts = ts := by unfold clampTs; rw [hl]; rfl
    have hf0 : b.frontmost_timestamp = 0 := by rw [hfront, hl]; rfl
    show (if b.frontmost_timestamp ≤ 0 then clampTs b ts
          else min b.frontmost_timestamp (clampTs b ts)) =
      minRecvTs (b.order_list ++ [(o, clampTs b ts)])
    rw [hf0, if_pos (le_refl 0), hl, hcl]
    rfl
  | cons y rest =>
    have hne : b.order_list ≠ [] := by rw [hl]; exact List.cons_ne_nil y rest
    have hmin_pos : 0 < minRecvTs b.order_list := by
      rw [hl]
      exact foldl_min_pos _ _
        (hpos y.2 (by rw [hl]; exact List.mem_cons_self _ _))
        (fun t ht => hpos t (by
          rw [hl, List.map_cons]
          exact List.mem_cons_of_mem _ ht))
    show (if b.frontmost_timestamp ≤ 0 then clampTs b ts
          else min b.frontmost_timestamp (clampTs b ts)) =
      minRecvTs (b.order_list ++ [(o, clampTs b ts)])
    rw [hfront, if_neg (by omega), minRecvTs_concat _ _ hne]

/-- Resetting re-establishes the cache invariant. -/
theorem busInv_reset (b : OrderBus) : busInv (b.reset) :=
  ⟨by simp [OrderBus.reset], rfl⟩

/-- The cache invariant holds along any sequence of appends with positive
timestamps and resets. -/
theorem applyOps_busInv (ops : List BusOp) (hops : ∀ op ∈ ops, goodOp op)
    (b : OrderBus) (hb : busInv b) (b' : OrderBus)
    (h : applyOps b ops = some b') : busInv b' := by
  induction ops generalizing b with
  | nil =>
    simp only [applyOps] at h
    cases h
    exact hb
  | cons op rest ih =>
    have hop : goodOp op := hops op (List.mem_cons_self op rest)
    have hrest : ∀ x ∈ rest, goodOp x :=
      fun x hx => hops x (List.mem_cons_of_mem op hx)
    cases op with
    | append o ts =>
      simp only [applyOps, applyOp] at h
      exact ih hrest (b.append o ts) (busInv_append b o ts hop hb) h
    | delitem i => exact absurd hop (fun hc => hc)
    | reset =>
      simp only [applyOps, applyOp] at h
      exact ih hrest (b.reset) (busInv_reset b) h

/-- C5 counterexample, refuting the claim on two independent operation
sequences. (a) After `append(o0, 5)` then `delitem(0)` from the empty bus,
the bus holds no items yet `frontmost_timestamp = 5`, while the minimum
receive timestamp of an empty bus is 0: `delitem` never touches the cache.
(b) With appends alone, `append(o0, -3)` then `append(o0, 10)` leaves
`frontmost_timestamp = 10` while the minimum held receive timestamp is -3:
the second append finds the cache non-positive and reseeds it, discarding
the held minimum. -/
theorem C5_counterexample :
    ((applyOps OrderBus.init [BusOp.append o0 5, BusOp.delitem 0]).map
        (fun b => (b.order_list, b.frontmost_timestamp))
      = some (([] : List (Order × ℤ)), (5 : ℤ))
     ∧ minRecvTs ([] : List (Order × ℤ)) ≠ 5)
    ∧ ((applyOps OrderBus.init
          [BusOp.append o0 (-3), BusOp.append o0 10]).map
        (fun b => (b.frontmost_timestamp, minRecvTs b.order_list))
      = some ((10 : ℤ), (-3 : ℤ))
     ∧ (10 : ℤ) ≠ (-3 : ℤ)) := by
  refine ⟨⟨by decide, by decide⟩, ⟨by decide, by decide⟩⟩

/-- C5 amended: after any sequence of `append` operations with positive
timestamps and `reset` operations starting from the empty bus,
`frontmost_timestamp` equals the minimum receive timestamp among held
items, or 0 when the bus is empty. Both exclusions are forced by the
counterexample: `delitem` removes an item without touching the cache, and
an `append` with a non-positive timestamp lets a later append's reseed
branch (`frontmost_timestamp <= 0`) discard the held minimum. -/
theorem C5_frontmost_is_min (ops : List BusOp)
    (hops : ∀ op ∈ ops, goodOp op) (b : OrderBus)
    (h : applyOps OrderBus.init ops = some b) :
    b.frontmost_timestamp = minRecvTs b.order_list :=
  (applyOps_busInv ops hops OrderBus.init ⟨by simp [OrderBus.init], rfl⟩ b h).2

/-- Witness for the amended C5 on the sequence
`append(o0,5); reset; append(o0,3)`. -/
theorem C5_witness :
    (∀ op ∈ [BusOp.append o0 5, BusOp.reset, BusOp.append o0 3], goodOp op)
    ∧ (OrderBus.mk [(o0, 3)] [(1, 1)] 3).frontmost_timestamp =
        minRecvTs (OrderBus.mk [(o0, 3)] [(1, 1)] 3).order_list :=
  ⟨by simp [goodOp],
   C5_frontmost_is_min [BusOp.append o0 5, BusOp.reset, BusOp.append o0 3]
     (by simp [goodOp]) (OrderBus.mk [(o0, 3)] [(1, 1)] 3) rfl⟩

/-- Unfolding `runDepth` on a cons cell. -/
theorem runDepth_cons (mode : SnapshotMode) (st : SnapState) (r : DepthRow)
    (rs : List DepthRow) :
    runDepth mode st (r :: rs) =
      ((runDepth mode (stepDepth mode st r).1 rs).1,
       (stepDepth mode st r).2 ++
         (runDepth mode (stepDepth mode st r).1 rs).2) := rfl

/-- Flushing a non-snapshot row in `process` mode while a snapshot block is
open: emit both side flushes and then the row's own `DEPTH_EVENT`. -/
theorem stepDepth_flush (B A : List Row6) (sod : Bool) (d : DepthRow)
    (hd : d.is_snapshot = false) :
    stepDepth SnapshotMode.process ⟨true, B, A, sod⟩ d =
      (⟨false, [], [], false⟩,
       flushSide 1 B ++ flushSide (-1) A ++ [diffRow6 d]) := by
  simp [stepDepth, hd]

/-- While a snapshot block is open in `process` mode, snapshot rows are
buffered by side and nothing is emitted. -/
theorem runDepth_accum (snaps : List DepthRow) :
    (∀ r ∈ snaps, r.is_snapshot = true) →
    ∀ (B A : List Row6) (sod : Bool) (l : List DepthRow),
      runDepth SnapshotMode.process ⟨true, B, A, sod⟩ (snaps ++ l) =
        runDepth SnapshotMode.process
          ⟨true, B ++ (snaps.filter (fun r => r.bid)).map snapRow6,
            A ++ (snaps.filter (fun r => !r.bid)).map snapRow6, sod⟩ l := by
  induction snaps with
  | nil =>
    intro _ B A sod l
    simp
  | cons r rs ih =>
    intro h B A sod l
    have hr : r.is_snapshot = true := h r (List.mem_cons_self _ _)
    have hrs : ∀ x ∈ rs, x.is_snapshot = true :=
      fun x hx => h x (List.mem_cons_of_mem _ hx)
    by_cases hb : r.bid = true
    · have hstep : stepDepth SnapshotMode.process ⟨true, B, A, sod⟩ r =
          (⟨true, B ++ [snapRow6 r], A, sod⟩, []) := by
        simp [stepDepth, hr, hb]
      rw [List.cons_append, runDepth_cons, hstep]
      simp only [List.nil_append]
      rw [ih hrs (B ++ [snapRow6 r]) A sod l]
      simp [List.filter_cons, hb, List.append_assoc]
    · have hb' : r.bid = false := by
        cases hbb : r.bid
        · rfl
        · exact absurd hbb hb
      have hstep : stepDepth SnapshotMode.process ⟨true, B, A, sod⟩ r =
          (⟨true, B, A ++ [snapRow6 r], sod⟩, []) := by
        simp [stepDepth, hr, hb']
      rw [List.cons_append, runDepth_cons, hstep]
      simp only [List.nil_append]
      rw [ih hrs B (A ++ [snapRow6 r]) sod l]
      simp [List.filter_cons, hb', List.append_assoc]

/-- The per-side flush of buffered snapshot rows equals the spec-side block
shape: clear event with the side and the side's last snapshot price, then
the side's snapshot rows. -/
theorem flushSide_map (side : ℚ) (l : List DepthRow) :
    flushSide side (l.map snapRow6) = sideBlock side l := by
  cases l with
  | nil => rfl
  | cons b bs =>
    show ({ ev := DEPTH_CLEAR_EVENT, exch_ts := (snapRow6 b).exch_ts,
            local_ts := (snapRow6 b).local_ts, side := side,
            price := ((bs.map snapRow6).getLastD (snapRow6 b)).price,
            qty := 0 } : Row6) :: (snapRow6 b :: bs.map snapRow6) =
      sideBlock side (b :: bs)
    rw [List.getLastD_map]
    rfl

/-- In `ignore` mode, every emitted row is a `DEPTH_EVENT` row. -/
theorem runDepth_ignore_ev (rows : List DepthRow) :
    ∀ (st : SnapState), st.is_snapshot = false →
    ∀ x ∈ (runDepth SnapshotMode.ignore st rows).2, x.ev = DEPTH_EVENT := by
  induction rows with
  | nil =>
    intro st _ x hx
    simp [runDepth] at hx
  | cons r rs ih =>
    intro st hst x hx
    rw [runDepth_cons] at hx
    by_cases hr : r.is_snapshot = true
    · have hstep : stepDepth SnapshotMode.ignore st r = (st, []) := by
        simp [stepDepth, hr]
      rw [hstep] at hx
      simp only [List.nil_append] at hx
      exact ih st hst x hx
    · have hr' : r.is_snapshot = false := by
        cases hrr : r.is_snapshot
        · rfl
        · exact absurd hrr hr
      have hstep : stepDepth SnapshotMode.ignore st r =
          ({ st with is_sod_snapshot := false }, [diffRow6 r]) := by
        simp [stepDepth, hr', hst]
      rw [hstep] at hx
      simp only [List.cons_append, List.nil_append, List.mem_cons] at hx
      rcases hx with hx | hx
      · rw [hx]
        rfl
      · exact ih { st with is_sod_snapshot := false } hst x hx

/-- C9 amended: with `snapshot_mode = process`, a contiguous snapshot block
that is followed by a non-snapshot depth row emits, for each side with at
least one snapshot row in the block, one `DEPTH_CLEAR_EVENT` row carrying
that side and the price of that side's last snapshot row, immediately
followed by that side's snapshot rows (then the terminating diff row); with
`snapshot_mode = ignore`, no snapshot or clear rows are emitted. A block
that the file ends inside is dropped (see the counterexample). -/
theorem C9_snapshot_ingestion :
    (∀ (st : SnapState), st.is_snapshot = false →
      ∀ (snaps : List DepthRow) (d : DepthRow) (rest : List DepthRow),
        snaps ≠ [] → (∀ r ∈ snaps, r.is_snapshot = true) →
        d.is_snapshot = false →
        (runDepth SnapshotMode.process st (snaps ++ d :: rest)).2 =
          sideBlock 1 (snaps.filter (fun r => r.bid))
            ++ sideBlock (-1) (snaps.filter (fun r => !r.bid))
            ++ diffRow6 d ::
              (runDepth SnapshotMode.process
                ⟨false, [], [], false⟩ rest).2)
    ∧ (∀ rows : List DepthRow,
        ∀ x ∈ convertDepthRows SnapshotMode.ignore rows,
          x.ev = DEPTH_EVENT ∧ x.ev ≠ DEPTH_CLEAR_EVENT
            ∧ x.ev ≠ DEPTH_SNAPSHOT_EVENT) := by
  constructor
  · intro st hst snaps d rest hne hsnap hd
    obtain ⟨s, ss, rfl⟩ : ∃ s ss, snaps = s :: ss := by
      cases snaps with
      | nil => exact absurd rfl hne
      | cons s ss => exact ⟨s, ss, rfl⟩
    have hs : s.is_snapshot = true := hsnap s (List.mem_cons_self _ _)
    have hss : ∀ r ∈ ss, r.is_snapshot = true :=
      fun r hr => hsnap r (List.mem_cons_of_mem _ hr)
    by_cases hb : s.bid = true
    · have hstep : stepDepth SnapshotMode.process st s =
          (⟨true, [snapRow6 s], [], st.is_sod_snapshot⟩, []) := by
        simp [stepDepth, hs, hst, hb]
      rw [List.cons_append, runDepth_cons, hstep]
      simp only [List.nil_append]
      rw [runDepth_accum ss hss [snapRow6 s] [] st.is_sod_snapshot (d :: rest)]
      rw [runDepth_cons, stepDepth_flush _ _ _ d hd]
      simp only [List.nil_append]
      have hBf : ([snapRow6 s] ++ (ss.filter (fun r => r.bid)).map snapRow6)
          = ((s :: ss).filter (fun r => r.bid)).map snapRow6 := by
        simp [List.filter_cons, hb]
      have hAf : (ss.filter (fun r => !r.bid))
          = ((s :: ss).filter (fun r => !r.bid)) := by
        simp [List.filter_cons, hb]
      rw [hBf, ← hAf, flushSide_map, flushSide_map, hAf]
      simp [List.append_assoc]
    · have hb' : s.bid = false := by
        cases hbb : s.bid
        · rfl
        · exact absurd hbb hb
      have hstep : stepDepth SnapshotMode.process st s =
          (⟨true, [], [snapRow6 s], st.is_sod_snapshot⟩, []) := by
        simp [stepDepth, hs, hst, hb']
      rw [List.cons_append, runDepth_cons, hstep]
      simp only [List.nil_append]
      rw [runDepth_accum ss hss [] [snapRow6 s] st.is_sod_snapshot (d :: rest)]
      rw [runDepth_cons, stepDepth_flush _ _ _ d hd]
      simp only [List.nil_append]
      have hBf : (ss.filter (fun r => r.bid))
          = ((s :: ss).filter (fun r => r.bid)) := by
        simp [List.filter_cons, hb']
      have hAf : ([snapRow6 s] ++ (ss.filter (fun r => !r.bid)).map snapRow6)
          = ((s :: ss).filter (fun r => !r.bid)).map snapRow6 := by
        simp [List.filter_cons, hb']
      rw [hAf, ← hBf, flushSide_map, flushSide_map, hBf]
      simp [List.append_assoc]
  · intro rows x hx
    have hev : x.ev = DEPTH_EVENT :=
      runDepth_ignore_ev rows initSnapState rfl x hx
    refine ⟨hev, ?_, ?_⟩
    · rw [hev]
      intro hc
      exact absurd hc (by norm_num [DEPTH_EVENT, DEPTH_CLEAR_EVENT])
    · rw [hev]
      intro hc
      exact absurd hc (by norm_num [DEPTH_EVENT, DEPTH_SNAPSHOT_EVENT])

/-- Sample bid snapshot CSV row, used in concrete conversions. -/
def snapBidRow : DepthRow :=
  { timestamp := 10, local_timestamp := 20, is_snapshot := true,
    bid := true, price := 100, amount := 7 }

/-- Sample non-snapshot (diff) CSV row, used in concrete conversions. -/
def diffRowSample : DepthRow :=
  { timestamp := 11, local_timestamp := 21, is_snapshot := false,
    bid := true, price := 101, amount := 3 }

/-- C9 counterexample: a depth file whose single contiguous snapshot block
sits at end of file (one bid snapshot row, nothing after it) emits no rows
at all in `process` mode — in particular no `DEPTH_CLEAR_EVENT` and no
snapshot rows for that block, although the claim requires them. -/
theorem C9_counterexample :
    convertDepthRows SnapshotMode.process [snapBidRow] = []
    ∧ sideBlock 1 [snapBidRow] ≠ [] := by
  refine ⟨rfl, ?_⟩
  decide

/-- Witness for the amended C9: one bid snapshot row terminated by a diff
row. -/
theorem C9_witness :
    (initSnapState.is_snapshot = false
      ∧ ([snapBidRow] : List DepthRow) ≠ []
      ∧ (∀ r ∈ [snapBidRow], r.is_snapshot = true)
      ∧ diffRowSample.is_snapshot = false)
    ∧ (runDepth SnapshotMode.process initSnapState
          ([snapBidRow] ++ diffRowSample :: [])).2 =
        sideBlock 1 ([snapBidRow].filter (fun r => r.bid))
          ++ sideBlock (-1) ([snapBidRow].filter (fun r => !r.bid))
          ++ diffRow6 diffRowSample ::
            (runDepth SnapshotMode.process ⟨false, [], [], false⟩ []).2 :=
  ⟨⟨rfl, by decide, by decide, rfl⟩,
   C9_snapshot_ingestion.1 initSnapState rfl [snapBidRow] diffRowSample []
     (by decide) (by decide) rfl⟩

end Hft
